import Mathlib

/-!
Verification of the pymor repository glue code: the demo-launcher CLI,
the CI wheel-building shell script, and the heat-equation model-order-reduction
notebook.  All strings are modelled as `List Char`, machine data as `Nat`/`ℚ`.
-/

/-! ### Demo launcher (`src/unnamed/part_000`, second document)

The launcher discovers the modules of the `pymordemos` package with
`pkgutil.walk_packages`, builds the parallel lists `modules` and `shorts`
(where `short = module_name[len('pymordemos.'):]`), and dispatches on
`sys.argv[1]`.  The import-system discovery itself is not modelled; the
launcher is parameterised by the discovered fully-qualified module names. -/

/-- The qualifier prepended to every discovered module name,
the literal `'pymordemos.'` of the launcher source. -/
def pkgDot : List Char := "pymordemos.".toList

/-- Line 57 of the launcher source: `short = module_name[len('pymordemos.'):]`. -/
def shortName (m : List Char) : List Char := m.drop pkgDot.length

/-- The `shorts` list built by the discovery loop (lines 54-59). -/
def shortsOf (modules : List (List Char)) : List (List Char) := modules.map shortName

/-- The run name passed to `runpy.run_module` on line 51. -/
def mainRunName : List Char := "__main__".toList

/-- Observable outcome of one launcher invocation: either a demo module is run
(recording the module name, the `run_name`, the `sys.argv` the module observes,
and the exit status), or the usage message is printed (recording the list of
short names it enumerates and the exit status). -/
inductive LaunchResult
  | ran (module : List Char) (runName : List Char) (argvSeen : List (List Char)) (exitCode : Nat)
  | usage (shortsListed : List (List Char)) (exitCode : Nat)
  deriving DecidableEq

/-- Exit status of a launcher outcome. -/
def LaunchResult.exitCode : LaunchResult → Nat
  | .ran _ _ _ c => c
  | .usage _ c => c

/-- Python linear search, modelling both `x in l` (found = `some`) and
`l.index(x)` (the index of the first occurrence). -/
def pyIndex (x : List Char) : List (List Char) → Option Nat
  | [] => none
  | a :: rest => if a = x then some 0 else (pyIndex x rest).map (· + 1)

/-- The launcher body (lines 73-77 of the source):
`if len(sys.argv) < 2: usage()` ;
`if sys.argv[1] in shorts: _run(modules[shorts.index(sys.argv[1])])` ;
`usage()`.  `_run` (lines 48-52) deletes `sys.argv[1]`, calls
`runpy.run_module(module, run_name='__main__', alter_sys=True)` and then
`sys.exit(0)`; `usage` (lines 61-71) prints the message listing all shorts and
calls `sys.exit(0)`. -/
def launcher (modules : List (List Char)) (argv : List (List Char)) : LaunchResult :=
  match argv with
  | a0 :: a1 :: rest =>
    match pyIndex a1 (shortsOf modules) with
    | some i => .ran (modules.getD i []) mainRunName (a0 :: rest) 0
    | none => .usage (shortsOf modules) 0
  | _ => .usage (shortsOf modules) 0

example :
    launcher ["pymordemos.burgers".toList, "pymordemos.heat".toList]
      ["pymor-demo".toList, "heat".toList, "-h".toList] =
    .ran "pymordemos.heat".toList mainRunName ["pymor-demo".toList, "-h".toList] 0 := by
  decide

example :
    launcher ["pymordemos.burgers".toList] ["pymor-demo".toList, "nope".toList] =
    .usage ["burgers".toList] 0 := by
  decide

/-! Launcher lemmas. -/

theorem shortName_injOn (m m' : List Char)
    (hm : m.take pkgDot.length = pkgDot) (hm' : m'.take pkgDot.length = pkgDot)
    (h : shortName m = shortName m') : m = m' := by
  have h1 : m.take pkgDot.length ++ m.drop pkgDot.length = m := List.take_append_drop _ _
  have h2 : m'.take pkgDot.length ++ m'.drop pkgDot.length = m' := List.take_append_drop _ _
  rw [← h1, ← h2, hm, hm']
  unfold shortName at h
  rw [h]

theorem pyIndex_get_of_nodup (l : List (List Char)) (hnd : l.Nodup)
    (i : Nat) (h : i < l.length) : pyIndex (l.get ⟨i, h⟩) l = some i := by
  induction l generalizing i with
  | nil => simp at h
  | cons a t ih =>
    obtain ⟨hna, hndt⟩ := List.nodup_cons.mp hnd
    cases i with
    | zero => simp [pyIndex]
    | succ k =>
      have hk : k < t.length := Nat.lt_of_succ_lt_succ h
      have hmem : t.get ⟨k, hk⟩ ∈ t := t.get_mem k hk
      have hne : a ≠ t.get ⟨k, hk⟩ := fun heq => hna (heq ▸ hmem)
      have hstep : (a :: t).get ⟨k + 1, h⟩ = t.get ⟨k, hk⟩ := rfl
      rw [hstep]
      simp only [pyIndex, if_neg hne]
      rw [ih hndt k hk]
      rfl

theorem pyIndex_eq_none (x : List Char) (l : List (List Char)) (hx : x ∉ l) :
    pyIndex x l = none := by
  induction l with
  | nil => rfl
  | cons a t ih =>
    have hne : a ≠ x := fun heq => hx (heq ▸ List.mem_cons_self a t)
    have hxt : x ∉ t := fun hmem => hx (List.mem_cons_of_mem _ hmem)
    simp [pyIndex, if_neg hne, ih hxt]

theorem shortsOf_nodup (modules : List (List Char)) (hnd : modules.Nodup)
    (hq : ∀ m ∈ modules, m.take pkgDot.length = pkgDot) :
    (shortsOf modules).Nodup :=
  hnd.map_on fun m hm m' hm' h => shortName_injOn m m' (hq m hm) (hq m' hm') h

/-- C1: with its first command-line argument equal to the short name of the
discovered module at index `i`, the launcher selects the module at that same
index of the discovered-modules list (the first match of the linear search),
runs exactly that module with run name `__main__`, and exits with status 0. -/
theorem launcher_dispatches_short_name (modules : List (List Char))
    (hnd : modules.Nodup)
    (hq : ∀ m ∈ modules, m.take pkgDot.length = pkgDot)
    (i : Nat) (h : i < modules.length) (a0 : List Char) (rest : List (List Char)) :
    pyIndex (shortName (modules.get ⟨i, h⟩)) (shortsOf modules) = some i ∧
    launcher modules (a0 :: shortName (modules.get ⟨i, h⟩) :: rest) =
      LaunchResult.ran (modules.get ⟨i, h⟩) mainRunName (a0 :: rest) 0 := by
  have hlen : i < (shortsOf modules).length := by
    simpa [shortsOf] using h
  have hget : (shortsOf modules).get ⟨i, hlen⟩ = shortName (modules.get ⟨i, h⟩) := by
    simp [shortsOf]
  have hidx : pyIndex (shortName (modules.get ⟨i, h⟩)) (shortsOf modules) = some i := by
    rw [← hget]
    exact pyIndex_get_of_nodup _ (shortsOf_nodup modules hnd hq) i hlen
  refine ⟨hidx, ?_⟩
  simp only [launcher]
  rw [hidx]
  have hgd : modules.getD i [] = modules.get ⟨i, h⟩ := List.getD_eq_getElem modules [] h
  show LaunchResult.ran (modules.getD i []) mainRunName (a0 :: rest) 0 =
    LaunchResult.ran (modules.get ⟨i, h⟩) mainRunName (a0 :: rest) 0
  rw [hgd]

/-- Witness for C1 at a concrete discovered-modules list. -/
theorem launcher_dispatches_short_name_witness :
    pyIndex "heat".toList (shortsOf ["pymordemos.burgers".toList, "pymordemos.heat".toList]) =
      some 1 ∧
    launcher ["pymordemos.burgers".toList, "pymordemos.heat".toList]
      ["pymor-demo".toList, "heat".toList, "-h".toList] =
      LaunchResult.ran "pymordemos.heat".toList mainRunName
        ["pymor-demo".toList, "-h".toList] 0 := by
  have h := launcher_dispatches_short_name
    ["pymordemos.burgers".toList, "pymordemos.heat".toList]
    (by decide) (by decide) 1 (by decide) "pymor-demo".toList ["-h".toList]
  simpa using h

/-- C7: on both paths the launcher controls (fewer than two arguments, or a
first argument that is no discovered short name) it prints the usage message
listing every short name and exits with status 0; indeed every launcher
outcome carries exit status 0. -/
theorem launcher_usage_exit_zero (modules : List (List Char)) (argv : List (List Char)) :
    (launcher modules argv).exitCode = 0 ∧
    (argv.length < 2 → launcher modules argv = LaunchResult.usage (shortsOf modules) 0) ∧
    (∀ a0 a1 rest, argv = a0 :: a1 :: rest → a1 ∉ shortsOf modules →
      launcher modules argv = LaunchResult.usage (shortsOf modules) 0) := by
  refine ⟨?_, ?_, ?_⟩
  · rcases argv with _ | ⟨a0, _ | ⟨a1, rest⟩⟩
    · rfl
    · rfl
    · simp only [launcher]
      cases hpi : pyIndex a1 (shortsOf modules) with
      | none => rfl
      | some i => rfl
  · intro hlt
    rcases argv with _ | ⟨a0, _ | ⟨a1, rest⟩⟩
    · rfl
    · rfl
    · simp only [List.length_cons] at hlt
      omega
  · rintro a0 a1 rest rfl hnm
    simp only [launcher]
    rw [pyIndex_eq_none a1 (shortsOf modules) hnm]

/-- Witness for C7 at two concrete invocations: too few arguments, and an
unknown demo name. -/
theorem launcher_usage_exit_zero_witness :
    launcher ["pymordemos.burgers".toList] ["pymor-demo".toList] =
      LaunchResult.usage (shortsOf ["pymordemos.burgers".toList]) 0 ∧
    launcher ["pymordemos.burgers".toList] ["pymor-demo".toList, "nope".toList] =
      LaunchResult.usage (shortsOf ["pymordemos.burgers".toList]) 0 :=
  ⟨(launcher_usage_exit_zero ["pymordemos.burgers".toList]
      ["pymor-demo".toList]).2.1 (by decide),
   (launcher_usage_exit_zero ["pymordemos.burgers".toList]
      ["pymor-demo".toList, "nope".toList]).2.2
    "pymor-demo".toList "nope".toList [] rfl (by decide)⟩

/-- C8: whenever the launcher runs a demo module, the `sys.argv` the module
observes is the original argument vector with exactly the element at index 1
(the demo name) removed: the program name followed by the unchanged remaining
demo options. -/
theorem launcher_removes_only_demo_name (modules : List (List Char))
    (argv : List (List Char)) (m rn : List Char) (args : List (List Char)) (ec : Nat)
    (h : launcher modules argv = LaunchResult.ran m rn args ec) :
    ∃ a0 a1 rest, argv = a0 :: a1 :: rest ∧ args = a0 :: rest := by
  rcases argv with _ | ⟨a0, _ | ⟨a1, rest⟩⟩
  · simp [launcher] at h
  · simp [launcher] at h
  · refine ⟨a0, a1, rest, rfl, ?_⟩
    simp only [launcher] at h
    cases hpi : pyIndex a1 (shortsOf modules) with
    | none => rw [hpi] at h; cases h
    | some i => rw [hpi] at h; cases h; rfl

/-- Witness for C8 at a concrete invocation. -/
theorem launcher_removes_only_demo_name_witness :
    ∃ a0 a1 rest,
      (["pymor-demo".toList, "heat".toList, "-h".toList] : List (List Char)) =
        a0 :: a1 :: rest ∧
      (["pymor-demo".toList, "-h".toList] : List (List Char)) = a0 :: rest :=
  launcher_removes_only_demo_name
    ["pymordemos.burgers".toList, "pymordemos.heat".toList]
    ["pymor-demo".toList, "heat".toList, "-h".toList]
    "pymordemos.heat".toList mainRunName ["pymor-demo".toList, "-h".toList] 0
    (by decide)

/-! ### CI wheel-building script (`src/unnamed/part_000`, first document)

The script runs under `set -e`; lines 5-7 conditionally patch `setup.cfg`,
line 17 creates the wheelhouse, line 20 pulls the builder image, lines 21-23
run the builder container, line 25 copies the deploy-check Dockerfile and
lines 26-28 build one deploy-check image per entry of `TEST_OS`.  Variable
assignments (lines 12-13) and the `cd` (line 14) only set up the shell
environment and are not modelled as pipeline steps. -/

/-- Expansion of a bash variable reference: an unset variable expands to the
empty string (the guard on line 5 runs before `set -u`). -/
def envExpand (v : Option (List Char)) : List Char := v.getD []

/-- Line 5 of the script: the test `[[ "x${CI_COMMIT_TAG}" == "x" ]]`. -/
def tagGuard (tag : Option (List Char)) : Bool :=
  ('x' :: envExpand tag) = ['x']

/-- Line 19: `BUILDER_IMAGE=pymor/wheelbuilder:py${PYVER}`. -/
def builderImage (pyver : List Char) : List Char :=
  "pymor/wheelbuilder:py".toList ++ pyver

/-- One step of the wheel-building pipeline. -/
inductive BuildStep
  | sedStyle
  | mkdirWheelhouse
  | dockerPull (image : List Char)
  | dockerRunBuilder (image : List Char)
  | cpDockerfile
  | dockerBuild (tag : List Char)
  deriving DecidableEq

/-- The pipeline of the script, in the order its lines execute: the
conditional `sed` (lines 5-7), `mkdir -p` (line 17), `docker pull` of the
builder image (line 20), the builder `docker run` (lines 21-23), the `cp`
of the deploy-check Dockerfile (line 25), and one
`docker build --build-arg tag=os` per entry of `TEST_OS` (lines 26-28). -/
def buildwheelsSteps (tag : Option (List Char)) (pyver : List Char)
    (testOS : List (List Char)) : List BuildStep :=
  (if tagGuard tag then [BuildStep.sedStyle] else [])
    ++ [BuildStep.mkdirWheelhouse,
        BuildStep.dockerPull (builderImage pyver),
        BuildStep.dockerRunBuilder (builderImage pyver),
        BuildStep.cpDockerfile]
    ++ testOS.map BuildStep.dockerBuild

/-- Execution under `set -e` (line 3): steps run in order; the first
failing step still runs, and everything after it is skipped. -/
def executedSteps (ok : BuildStep → Bool) : List BuildStep → List BuildStep
  | [] => []
  | s :: rest => if ok s then s :: executedSteps ok rest else [s]

theorem executedSteps_isPrefix (ok : BuildStep → Bool) (l : List BuildStep) :
    executedSteps ok l = l.take (executedSteps ok l).length := by
  induction l with
  | nil => rfl
  | cons s rest ih =>
    by_cases hs : ok s = true
    · simp only [executedSteps, if_pos hs, List.length_cons, List.take_succ_cons]
      exact congrArg (s :: ·) ih
    · simp only [executedSteps, if_neg hs]
      rfl

theorem executedSteps_stop_after_fail (ok : BuildStep → Bool) (l : List BuildStep)
    (i : Nat) (hi : i < l.length) (hfail : ok (l.get ⟨i, hi⟩) = false) :
    (executedSteps ok l).length ≤ i + 1 := by
  induction l generalizing i with
  | nil => simp at hi
  | cons s rest ih =>
    by_cases hs : ok s = true
    · cases i with
      | zero =>
        have : s = (s :: rest).get ⟨0, hi⟩ := rfl
        rw [← this] at hfail
        rw [hs] at hfail
        cases hfail
      | succ k =>
        have hk : k < rest.length := Nat.lt_of_succ_lt_succ hi
        have hgk : (s :: rest).get ⟨k + 1, hi⟩ = rest.get ⟨k, hk⟩ := rfl
        rw [hgk] at hfail
        simp only [executedSteps, if_pos hs, List.length_cons]
        exact Nat.succ_le_succ (ih k hk hfail)
    · simp only [executedSteps, if_neg hs, List.length_cons, List.length_nil]
      omega

/-- C4: the pipeline is ordered, with the pull of
`pymor/wheelbuilder:py${PYVER}` immediately followed by the builder run, the
Dockerfile copy, and then exactly one `docker build --build-arg tag=os` per
entry of `TEST_OS`, in that order; under `set -e`, execution is an in-order
segment of the step list that stops with the first failing step, so a failure
at index `i` prevents every later step from executing. -/
theorem ci_wheel_pipeline_order (tag : Option (List Char)) (pyver : List Char)
    (testOS : List (List Char)) (ok : BuildStep → Bool) :
    (∃ pre, buildwheelsSteps tag pyver testOS =
        pre ++ ([BuildStep.dockerPull (builderImage pyver),
                 BuildStep.dockerRunBuilder (builderImage pyver),
                 BuildStep.cpDockerfile]
                ++ testOS.map BuildStep.dockerBuild) ∧
        ∀ st ∈ pre, st = BuildStep.sedStyle ∨ st = BuildStep.mkdirWheelhouse) ∧
    executedSteps ok (buildwheelsSteps tag pyver testOS) =
      (buildwheelsSteps tag pyver testOS).take
        (executedSteps ok (buildwheelsSteps tag pyver testOS)).length ∧
    (∀ i (hi : i < (buildwheelsSteps tag pyver testOS).length),
      ok ((buildwheelsSteps tag pyver testOS).get ⟨i, hi⟩) = false →
      (executedSteps ok (buildwheelsSteps tag pyver testOS)).length ≤ i + 1) := by
  refine ⟨⟨(if tagGuard tag then [BuildStep.sedStyle] else []) ++ [BuildStep.mkdirWheelhouse],
      ?_, ?_⟩, executedSteps_isPrefix ok _, fun i hi hf => executedSteps_stop_after_fail ok _ i hi hf⟩
  · unfold buildwheelsSteps
    by_cases hg : tagGuard tag = true
    · simp [hg]
    · simp [hg]
  · intro st hst
    rcases List.mem_append.mp hst with hpre | hmk
    · by_cases hg : tagGuard tag = true
      · rw [if_pos hg] at hpre
        left
        simpa using hpre
      · rw [if_neg hg] at hpre
        simp at hpre
    · right
      simpa using hmk

/-! The `sed` substitution of line 6:
`sed -i -e 's;style\ \=\ pep440;style\ \=\ ci_wheel_builder;g' setup.cfg`.
In the sed pattern a backslash-escaped space or `=` is the literal character,
so every occurrence of `style = pep440` is replaced by
`style = ci_wheel_builder`.  `sed` substitutes line by line, leftmost first,
non-overlapping; since the pattern contains no newline, this coincides with
the leftmost-first non-overlapping substitution on the whole file content,
which is what `sedSubst` models.  The recursion is bounded by a fuel
argument; `sedSubst` supplies fuel equal to the content length, which the
lemmas below show is always sufficient. -/

/-- The sed pattern `style = pep440`. -/
def patS : List Char := "style = pep440".toList

/-- The sed replacement `style = ci_wheel_builder`. -/
def repS : List Char := "style = ci_wheel_builder".toList

/-- Leftmost-first non-overlapping global substitution of `patS` by `repS`,
with explicit fuel. -/
def sedSubstF : Nat → List Char → List Char
  | 0, s => s
  | _ + 1, [] => []
  | fuel + 1, c :: cs =>
    if (c :: cs).take patS.length = patS then
      repS ++ sedSubstF fuel ((c :: cs).drop patS.length)
    else
      c :: sedSubstF fuel cs

/-- The effect of the `sed` command of line 6 on the content of `setup.cfg`. -/
def sedSubst (s : List Char) : List Char := sedSubstF s.length s

/-- The maximal pattern-free pieces of `s`: `s` is `chunksOf s` joined by
occurrences of `patS` (leftmost-first, non-overlapping), with explicit fuel. -/
def chunksOfF : Nat → List Char → List (List Char)
  | 0, s => [s]
  | _ + 1, [] => [[]]
  | fuel + 1, c :: cs =>
    if (c :: cs).take patS.length = patS then
      [] :: chunksOfF fuel ((c :: cs).drop patS.length)
    else
      match chunksOfF fuel cs with
      | [] => [[c]]
      | ch :: rest => (c :: ch) :: rest

def chunksOf (s : List Char) : List (List Char) := chunksOfF s.length s

/-- Whether `p` occurs as a contiguous substring of `s`. -/
def occursIn (p : List Char) : List Char → Bool
  | [] => decide (p = [])
  | c :: cs => (List.take p.length (c :: cs) = p) || occursIn p cs

/-- Joining pieces with a separator. -/
def joinWith (sep : List Char) : List (List Char) → List Char
  | [] => []
  | [c] => c
  | c :: cs => c ++ sep ++ joinWith sep cs

/-- The conditional patch of `setup.cfg` (lines 5-7): the substitution runs
exactly when `CI_COMMIT_TAG` expands to the empty string. -/
def patchSetupCfg (tag : Option (List Char)) (cfg : List Char) : List Char :=
  if tagGuard tag then sedSubst cfg else cfg

theorem joinWith_cons_cons (sep c ch : List Char) (rest : List (List Char)) :
    joinWith sep ((c ++ ch) :: rest) = c ++ joinWith sep (ch :: rest) := by
  cases rest with
  | nil => rfl
  | cons r rs =>
    show (c ++ ch) ++ sep ++ joinWith sep (r :: rs) = c ++ (ch ++ sep ++ joinWith sep (r :: rs))
    simp [List.append_assoc]

theorem joinWith_head_append (sep ch : List Char) (rest : List (List Char)) :
    ∃ t, joinWith sep (ch :: rest) = ch ++ t := by
  cases rest with
  | nil => exact ⟨[], by simp [joinWith]⟩
  | cons r rs => exact ⟨sep ++ joinWith sep (r :: rs), by simp [joinWith, List.append_assoc]⟩

/-- Main structural lemma about the sed substitution: with sufficient fuel,
the substitution result is the pattern-free chunks rejoined by the
replacement, the chunks rejoined by the pattern reconstruct the input, and no
chunk contains the pattern. -/
theorem sedSubstF_chunks (fuel : Nat) : ∀ s : List Char, s.length ≤ fuel →
    chunksOfF fuel s ≠ [] ∧
    sedSubstF fuel s = joinWith repS (chunksOfF fuel s) ∧
    joinWith patS (chunksOfF fuel s) = s ∧
    ∀ ch ∈ chunksOfF fuel s, occursIn patS ch = false := by
  induction fuel with
  | zero =>
    intro s hs
    have hnil : s = [] := List.length_eq_zero.mp (Nat.le_zero.mp hs)
    subst hnil
    refine ⟨by simp [chunksOfF], rfl, rfl, ?_⟩
    intro ch hch
    simp [chunksOfF] at hch
    subst hch
    decide
  | succ fuel ih =>
    intro s hs
    cases s with
    | nil =>
      refine ⟨by simp [chunksOfF], rfl, rfl, ?_⟩
      intro ch hch
      simp [chunksOfF] at hch
      subst hch
      decide
    | cons c cs =>
      by_cases hm : (c :: cs).take patS.length = patS
      · -- pattern matches at the head: consume it
        have hlen : patS.length ≤ (c :: cs).length := by
          have := congrArg List.length hm
          simp only [List.length_take] at this
          omega
        have hdlen : ((c :: cs).drop patS.length).length ≤ fuel := by
          simp only [List.length_drop]
          have h1 : (c :: cs).length ≤ fuel + 1 := hs
          have h2 : 0 < patS.length := by decide
          omega
        obtain ⟨hne, hsed, hjoin, hocc⟩ := ih ((c :: cs).drop patS.length) hdlen
        cases hchk : chunksOfF fuel ((c :: cs).drop patS.length) with
        | nil => exact absurd hchk hne
        | cons ch0 rest0 =>
          rw [hchk] at hsed hjoin hocc
          refine ⟨?_, ?_, ?_, ?_⟩
          · simp [chunksOfF, if_pos hm, hchk]
          · simp only [sedSubstF, chunksOfF, if_pos hm, hchk]
            have : joinWith repS ([] :: ch0 :: rest0) = repS ++ joinWith repS (ch0 :: rest0) := rfl
            rw [this, hsed]
          · simp only [chunksOfF, if_pos hm, hchk]
            have : joinWith patS ([] :: ch0 :: rest0) = patS ++ joinWith patS (ch0 :: rest0) := rfl
            rw [this, hjoin]
            conv_rhs => rw [← List.take_append_drop patS.length (c :: cs)]
            rw [hm]
          · intro ch hch
            simp only [chunksOfF, if_pos hm, hchk] at hch
            rcases List.mem_cons.mp hch with h0 | hmem
            · subst h0; decide
            · exact hocc ch hmem
      · -- no pattern at the head: keep the head character
        have hclen : cs.length ≤ fuel := by
          have : (c :: cs).length ≤ fuel + 1 := hs
          simp only [List.length_cons] at this
          omega
        obtain ⟨hne, hsed, hjoin, hocc⟩ := ih cs hclen
        cases hchk : chunksOfF fuel cs with
        | nil => exact absurd hchk hne
        | cons ch0 rest0 =>
          rw [hchk] at hsed hjoin hocc
          have hchead : chunksOfF (fuel + 1) (c :: cs) = (c :: ch0) :: rest0 := by
            simp [chunksOfF, if_neg hm, hchk]
          -- the head chunk is a prefix of cs
          obtain ⟨t, ht⟩ := joinWith_head_append patS ch0 rest0
          have hcs : cs = ch0 ++ t := by rw [← hjoin, ht]
          refine ⟨by simp [hchead], ?_, ?_, ?_⟩
          · simp only [sedSubstF, if_neg hm, hchead]
            have h1 : (c :: ch0) :: rest0 = (([c] ++ ch0) :: rest0) := by simp
            rw [h1, joinWith_cons_cons]
            rw [hsed]
            rfl
          · rw [hchead]
            have h1 : (c :: ch0) :: rest0 = (([c] ++ ch0) :: rest0) := by simp
            rw [h1, joinWith_cons_cons, hjoin]
            rfl
          · intro ch hch
            rw [hchead] at hch
            rcases List.mem_cons.mp hch with h0 | hmem
            · subst h0
              -- occurrences in `c :: ch0`: none at the head (else the pattern
              -- would match at the head of `c :: cs`), none inside `ch0`
              have htail : occursIn patS ch0 = false := hocc ch0 (List.mem_cons_self ch0 rest0)
              have hhead : ((c :: ch0).take patS.length = patS) = False := by
                apply eq_false
                intro heq
                apply hm
                -- `patS` is then a prefix of `c :: ch0`, hence of `c :: cs`
                have hlch : patS.length ≤ ch0.length + 1 := by
                  have := congrArg List.length heq
                  simp only [List.length_take, List.length_cons] at this
                  omega
                have hsplit : c :: cs = (c :: ch0) ++ t := by rw [hcs]; rfl
                rw [hsplit, List.take_append_eq_append_take]
                have hz : patS.length - (c :: ch0).length = 0 := by
                  simp only [List.length_cons]
                  omega
                rw [hz, heq]
                simp
              simp only [occursIn, hhead, htail]
              rfl
            · exact hocc ch (List.mem_cons_of_mem ch0 hmem)

theorem sedSubst_chunks (s : List Char) :
    sedSubst s = joinWith repS (chunksOf s) ∧
    joinWith patS (chunksOf s) = s ∧
    ∀ ch ∈ chunksOf s, occursIn patS ch = false :=
  (sedSubstF_chunks s.length s (Nat.le_refl _)).2

/-- C9: the script rewrites `setup.cfg` exactly when `CI_COMMIT_TAG` is unset
or empty.  In that case the new content is the pattern-free chunks of the old
content rejoined by `style = ci_wheel_builder`; rejoining the same chunks by
`style = pep440` reconstructs the old content and no chunk contains the
pattern, i.e. every occurrence of `style = pep440` is replaced and no other
text changes.  When `CI_COMMIT_TAG` is non-empty the content is unchanged. -/
theorem ci_setupCfg_patch (tag : Option (List Char)) (cfg : List Char) :
    (tagGuard tag = true ↔ tag = none ∨ tag = some []) ∧
    (tagGuard tag = false → patchSetupCfg tag cfg = cfg) ∧
    (tagGuard tag = true →
      patchSetupCfg tag cfg = joinWith repS (chunksOf cfg) ∧
      joinWith patS (chunksOf cfg) = cfg ∧
      ∀ ch ∈ chunksOf cfg, occursIn patS ch = false) := by
  refine ⟨?_, ?_, ?_⟩
  · constructor
    · intro hg
      cases tag with
      | none => exact Or.inl rfl
      | some v =>
        cases v with
        | nil => exact Or.inr rfl
        | cons a t =>
          exfalso
          simp [tagGuard, envExpand] at hg
    · rintro (rfl | rfl) <;> rfl
  · intro hg
    simp [patchSetupCfg, hg]
  · intro hg
    have hp : patchSetupCfg tag cfg = sedSubst cfg := by simp [patchSetupCfg, hg]
    obtain ⟨h1, h2, h3⟩ := sedSubst_chunks cfg
    exact ⟨hp.trans h1, h2, h3⟩

/-- Witness for C9 at `CI_COMMIT_TAG` unset and a concrete `setup.cfg`
content, together with the evaluated substitution on that content. -/
theorem ci_setupCfg_patch_witness :
    (patchSetupCfg none "[versioneer]\nstyle = pep440\ntag = v\n".toList =
      joinWith repS (chunksOf "[versioneer]\nstyle = pep440\ntag = v\n".toList)) ∧
    patchSetupCfg none "[versioneer]\nstyle = pep440\ntag = v\n".toList =
      "[versioneer]\nstyle = ci_wheel_builder\ntag = v\n".toList ∧
    patchSetupCfg (some "v1".toList) "[versioneer]\nstyle = pep440\ntag = v\n".toList =
      "[versioneer]\nstyle = pep440\ntag = v\n".toList :=
  ⟨((ci_setupCfg_patch none "[versioneer]\nstyle = pep440\ntag = v\n".toList).2.2 rfl).1,
   by decide,
   (ci_setupCfg_patch (some "v1".toList)
      "[versioneer]\nstyle = pep440\ntag = v\n".toList).2.1 rfl⟩

/-- Witness for C4: with a failing builder run at index 2 of the concrete
pipeline, at most three steps execute. -/
theorem ci_wheel_pipeline_order_witness :
    (executedSteps
        (fun st => match st with | BuildStep.dockerRunBuilder _ => false | _ => true)
        (buildwheelsSteps (some "4.2".toList) "36".toList
          ["centos_8".toList, "debian_buster".toList])).length ≤ 3 :=
  (ci_wheel_pipeline_order (some "4.2".toList) "36".toList
      ["centos_8".toList, "debian_buster".toList]
      (fun st => match st with | BuildStep.dockerRunBuilder _ => false | _ => true)).2.2
    2 (by decide) (by decide)

/-! ### Heat-equation notebook (`src/notebooks/heat.ipynb`)

The notebook is straight-line glue code calling the pymor library; it is
embedded as the ordered trace of its operations, one trace entry per library
call of a code cell (cosmetic arguments such as axes, line styles, titles and
log levels are not recorded).  The algorithmic content of the library calls
(discretization, reduction, norm computation) lives in the pymor library,
outside the supplied sources; only the sequencing and the data flow visible
in the notebook are modelled.  The trace is parameterised by
`config.HAVE_SLYCOT`, which guards every `hinf_norm` computation. -/

/-- The reduction methods exercised by the notebook. -/
inductive RedMethod
  | bt | lqgbt | brbt | irka | tsia | osirka | tfirka
  deriving DecidableEq

/-- The system norms used by the notebook. -/
inductive NormKind
  | h2 | hinf | hankel
  deriving DecidableEq

/-- Symbolic system expressions of the notebook: the instationary full-order
model `fom`, the LTI model `lti = fom.to_lti()`, the analytic transfer
function `tf`, each reduced model, the TSIA initial model `rom0`, and error
systems formed by subtraction. -/
inductive SysExpr
  | fom
  | lti
  | tf
  | rom (m : RedMethod)
  | rom0
  | sub (a b : SysExpr)
  deriving DecidableEq

/-- One operation of the notebook trace. -/
inductive NbOp
  | discretize (diameterDen nt : Nat)
  | visualize (s : SysExpr)
  | toLTI
  | printDims (s : SysExpr)
  | polesPlot (s : SysExpr)
  | magPlot (s : SysExpr)
  | hsvPlot (s : SysExpr)
  | printNorm (s : SysExpr) (n : NormKind)
  | reduce (m : RedMethod) (src : SysExpr) (ord : Option Nat)
  | fromMatricesRom0 (order : Nat)
  | ratioNormReport (num : SysExpr) (numNorm : NormKind) (den : SysExpr) (denNorm : NormKind)
  | distPlot (m : RedMethod)
  | defineTF
  | quadH2Norm (s : SysExpr)
  | quadRatioH2Report (num den : SysExpr)
  deriving DecidableEq

/-- The trace of the notebook's code cells, in order.  `slycot` is
`config.HAVE_SLYCOT`; each `hinf_norm` computation is guarded by it.
Cell numbering refers to the cell order of `heat.ipynb`. -/
def heatNotebook (slycot : Bool) : List NbOp :=
  -- cell 7: `fom, _ = discretize_instationary_cg(p, diameter=1/100, nt=100)`
  [NbOp.discretize 100 100,
  -- cell 9: `fom.visualize(fom.solve())`
   NbOp.visualize .fom,
  -- cell 11: `lti = fom.to_lti()`
   NbOp.toLTI,
  -- cell 13: order / input_dim / output_dim of `lti`
   NbOp.printDims .lti,
  -- cell 14: `lti.poles()` plot
   NbOp.polesPlot .lti,
  -- cell 15: `lti.mag_plot(w)`
   NbOp.magPlot .lti,
  -- cell 16: `lti.hsv()` plot
   NbOp.hsvPlot .lti,
  -- cell 17: FOM norms (`hinf_norm` under `config.HAVE_SLYCOT`)
   NbOp.printNorm .lti .h2]
  ++ (if slycot then [NbOp.printNorm .lti .hinf] else [])
  ++ [NbOp.printNorm .lti .hankel,
  -- cell 19: `rom_bt = BTReductor(lti).reduce(r, tol=1e-5)` with `r = 5`
   NbOp.reduce .bt .lti (some 5),
  -- cell 20: `err_bt = lti - rom_bt` and the three relative errors
   NbOp.ratioNormReport (.sub .lti (.rom .bt)) .h2 .lti .h2]
  ++ (if slycot then [NbOp.ratioNormReport (.sub .lti (.rom .bt)) .hinf .lti .hinf] else [])
  ++ [NbOp.ratioNormReport (.sub .lti (.rom .bt)) .hankel .lti .hankel,
  -- cell 21: Bode plot of the full and BT reduced model
   NbOp.magPlot .lti, NbOp.magPlot (.rom .bt),
  -- cell 22: Bode plot of the BT error system
   NbOp.magPlot (.sub .lti (.rom .bt)),
  -- cell 24: `rom_lqgbt = LQGBTReductor(lti).reduce(r, tol=1e-5)` with `r = 5`
   NbOp.reduce .lqgbt .lti (some 5),
  -- cell 25: LQGBT relative errors
   NbOp.ratioNormReport (.sub .lti (.rom .lqgbt)) .h2 .lti .h2]
  ++ (if slycot then [NbOp.ratioNormReport (.sub .lti (.rom .lqgbt)) .hinf .lti .hinf] else [])
  ++ [NbOp.ratioNormReport (.sub .lti (.rom .lqgbt)) .hankel .lti .hankel,
  -- cell 26: Bode plot of the full and LQGBT reduced model
   NbOp.magPlot .lti, NbOp.magPlot (.rom .lqgbt),
  -- cell 27: Bode plot of the LQGBT error system
   NbOp.magPlot (.sub .lti (.rom .lqgbt)),
  -- cell 29: `rom_brbt = BRBTReductor(lti, 0.34).reduce(r, tol=1e-5)` with `r = 5`
   NbOp.reduce .brbt .lti (some 5),
  -- cell 30: BRBT relative errors
   NbOp.ratioNormReport (.sub .lti (.rom .brbt)) .h2 .lti .h2]
  ++ (if slycot then [NbOp.ratioNormReport (.sub .lti (.rom .brbt)) .hinf .lti .hinf] else [])
  ++ [NbOp.ratioNormReport (.sub .lti (.rom .brbt)) .hankel .lti .hankel,
  -- cell 31: Bode plot of the full and BRBT reduced model
   NbOp.magPlot .lti, NbOp.magPlot (.rom .brbt),
  -- cell 32: Bode plot of the BRBT error system
   NbOp.magPlot (.sub .lti (.rom .brbt)),
  -- cell 34: `rom_irka = IRKAReductor(lti).reduce(r, sigma, compute_errors=True)`
   NbOp.reduce .irka .lti (some 5),
  -- cell 35: IRKA shift-distance plot
   NbOp.distPlot .irka,
  -- cell 36: IRKA relative errors
   NbOp.ratioNormReport (.sub .lti (.rom .irka)) .h2 .lti .h2]
  ++ (if slycot then [NbOp.ratioNormReport (.sub .lti (.rom .irka)) .hinf .lti .hinf] else [])
  ++ [NbOp.ratioNormReport (.sub .lti (.rom .irka)) .hankel .lti .hankel,
  -- cell 37: Bode plot of the full and IRKA reduced model
   NbOp.magPlot .lti, NbOp.magPlot (.rom .irka),
  -- cell 38: Bode plot of the IRKA error system
   NbOp.magPlot (.sub .lti (.rom .irka)),
  -- cell 40: `rom0 = LTIModel.from_matrices(Ar, Br, Cr, E=Er, ...)` of order 5,
  -- then `rom_tsia = TSIAReductor(lti).reduce(rom0, compute_errors=True)`;
  -- the requested order 5 is conveyed by the order-5 initial model `rom0`
   NbOp.fromMatricesRom0 5,
   NbOp.reduce .tsia .lti (some 5),
  -- cell 42: `rom_one_sided_irka = OneSidedIRKAReductor(lti, 'V').reduce(r, sigma, compute_errors=True)`
   NbOp.reduce .osirka .lti (some 5),
  -- cell 43: one-sided IRKA shift-distance plot
   NbOp.distPlot .osirka,
  -- cell 44: poles of the one-sided IRKA ROM
   NbOp.polesPlot (.rom .osirka),
  -- cell 45: one-sided IRKA relative errors
   NbOp.ratioNormReport (.sub .lti (.rom .osirka)) .h2 .lti .h2]
  ++ (if slycot then [NbOp.ratioNormReport (.sub .lti (.rom .osirka)) .hinf .lti .hinf] else [])
  ++ [NbOp.ratioNormReport (.sub .lti (.rom .osirka)) .hankel .lti .hankel,
  -- cell 46: Bode plot of the full and one-sided IRKA reduced model
   NbOp.magPlot .lti, NbOp.magPlot (.rom .osirka),
  -- cell 47: Bode plot of the one-sided IRKA error system
   NbOp.magPlot (.sub .lti (.rom .osirka)),
  -- cells 49-55: sympy transfer-function derivation and
  -- `tf = TransferFunction(lti.input_space, lti.output_space, H, dH)`
   NbOp.defineTF,
  -- cell 57: Bode plot of `tf - lti`
   NbOp.magPlot (.sub .tf .lti),
  -- cell 58: quadrature H2 norm of `tf`, compared to `lti.h2_norm()`
   NbOp.quadH2Norm .tf,
   NbOp.printNorm .lti .h2,
  -- cell 59: `TF-LTI relative H_2-distance` = quadrature norm of `tf - lti` over the norm of `tf`
   NbOp.quadRatioH2Report (.sub .tf .lti) .tf,
  -- cell 61: `rom_tf_irka = TF_IRKAReductor(tf).reduce(r)` with `r = 5`
   NbOp.reduce .tfirka .tf (some 5),
  -- cell 63: TF-IRKA relative H2 error (quadrature), relative to the norm of `tf`
   NbOp.quadRatioH2Report (.sub .tf (.rom .tfirka)) .tf,
  -- cell 64: IRKA relative H2 error measured from `tf` (quadrature)
   NbOp.quadRatioH2Report (.sub .tf (.rom .irka)) .tf]

/-- Whether `x` appears (as a subterm) in the system expression `e`. -/
def mentionsExpr (x : SysExpr) : SysExpr → Bool
  | .sub a b => decide (SysExpr.sub a b = x) || mentionsExpr x a || mentionsExpr x b
  | e => decide (e = x)

/-- The system expressions an operation touches. -/
def opExprs : NbOp → List SysExpr
  | .discretize _ _ => []
  | .visualize s => [s]
  | .toLTI => [.fom]
  | .printDims s => [s]
  | .polesPlot s => [s]
  | .magPlot s => [s]
  | .hsvPlot s => [s]
  | .printNorm s _ => [s]
  | .reduce _ src _ => [src]
  | .fromMatricesRom0 _ => []
  | .ratioNormReport num _ den _ => [num, den]
  | .distPlot _ => []
  | .defineTF => []
  | .quadH2Norm s => [s]
  | .quadRatioH2Report num den => [num, den]

/-- Whether an operation reports a norm figure or draws a plot. -/
def opReportsOrPlots : NbOp → Bool
  | .printNorm _ _ => true
  | .magPlot _ => true
  | .ratioNormReport _ _ _ _ => true
  | .quadH2Norm _ => true
  | .quadRatioH2Report _ _ => true
  | _ => false

/-- Whether an operation is a quadrature-based relative H2 figure. -/
def opIsQuadRatio : NbOp → Bool
  | .quadRatioH2Report _ _ => true
  | _ => false

/-- Whether an operation is a reduction call. -/
def isReduceOp : NbOp → Bool
  | .reduce _ _ _ => true
  | _ => false

/-- Whether an operation is a method-based relative norm report
(an `err.X_norm() / lti.X_norm()` print). -/
def isRatioNormReport : NbOp → Bool
  | .ratioNormReport _ _ _ _ => true
  | _ => false

/-- Modelled from the spec: the order of the full model produced by
`discretize_instationary_cg` (pymor library code, not under `src/`).  The
spec's full-order model is the continuous-Galerkin discretization of the heat
equation on the segment `[0, 1]` with mesh diameter `1/100`; piecewise-linear
elements on the resulting 100-interval grid carry one degree of freedom per
grid node, giving order 101. -/
def fullOrder : Nat := 101

/-- Claim C2 as stated (spec side): an operation quantifying the norm `n` of
the error system of method `m`.  Read generously, the full model may be the
LTI model or the analytic transfer function, and both the method-based norm
reports and the quadrature-based H2 figures count. -/
def reportsErrNorm (m : RedMethod) (n : NormKind) (op : NbOp) : Bool :=
  match op with
  | .ratioNormReport num numNorm _ _ =>
      numNorm = n &&
        (num = SysExpr.sub .lti (.rom m) || num = SysExpr.sub .tf (.rom m))
  | .quadRatioH2Report num _ =>
      n = NormKind.h2 &&
        (num = SysExpr.sub .lti (.rom m) || num = SysExpr.sub .tf (.rom m))
  | _ => false

/-- Claim C2 as stated (spec side): a Bode magnitude plot involving the
reduced model of method `m`. -/
def bodePlotOfRom (m : RedMethod) (op : NbOp) : Bool :=
  match op with
  | .magPlot e => mentionsExpr (.rom m) e
  | _ => false

/-- Claim C2 as stated (spec side): every reduced-order model produced is
quantified by all three of the H2, H-infinity and Hankel norms of its error
system, together with a Bode magnitude comparison. -/
def specC2AllNormsAndBode (t : List NbOp) : Bool :=
  [RedMethod.bt, .lqgbt, .brbt, .irka, .tsia, .osirka, .tfirka].all fun m =>
    ([NormKind.h2, .hinf, .hankel].all fun n => t.any (reportsErrNorm m n)) &&
      t.any (bodePlotOfRom m)

/-- Counterexample to C2: even with Slycot available, the notebook reports no
error norm at all for the TSIA reduced model (and no Bode plot of it), so the
claim that every reduced model is quantified by all three norms plus a Bode
comparison is false. -/
theorem heat_c2_counterexample :
    specC2AllNormsAndBode (heatNotebook true) = false ∧
    (heatNotebook true).all
      (fun op => !(opReportsOrPlots op &&
        (opExprs op).any (mentionsExpr (.rom .tsia)))) = true := by
  constructor
  · decide
  · decide

/-- Whether the trace fully scores the reduced model of method `m` the way
the five state-space reductions are scored: relative H2 and Hankel errors of
`lti - rom` always, the relative H-infinity error exactly when Slycot is
available, a Bode plot of the reduced model (drawn over the full model's) and
a Bode plot of the error system. -/
def romFullyScored (slycot : Bool) (t : List NbOp) (m : RedMethod) : Bool :=
  t.contains (NbOp.ratioNormReport (.sub .lti (.rom m)) .h2 .lti .h2) &&
  t.contains (NbOp.ratioNormReport (.sub .lti (.rom m)) .hankel .lti .hankel) &&
  (t.contains (NbOp.ratioNormReport (.sub .lti (.rom m)) .hinf .lti .hinf) == slycot) &&
  t.contains (NbOp.magPlot .lti) &&
  t.contains (NbOp.magPlot (.rom m)) &&
  t.contains (NbOp.magPlot (.sub .lti (.rom m)))

/-- C2 amended: the BT, LQGBT, BRBT, IRKA and one-sided IRKA reduced models
are each scored by relative H2 and Hankel errors of `lti - rom`, by the
relative H-infinity error exactly when Slycot is available, and by Bode
magnitude comparisons (reduced over full, and of the error system).  The TSIA
reduced model appears in no norm report or plot at all, and the TF-IRKA
reduced model is assessed only by the quadrature-based relative H2 error
against the analytic transfer function. -/
theorem heat_error_quantification : ∀ slycot : Bool,
    ([RedMethod.bt, .lqgbt, .brbt, .irka, .osirka].all
      (romFullyScored slycot (heatNotebook slycot)) = true) ∧
    ((heatNotebook slycot).all
      (fun op => !(opReportsOrPlots op &&
        (opExprs op).any (mentionsExpr (.rom .tsia)))) = true) ∧
    ((heatNotebook slycot).contains
      (NbOp.quadRatioH2Report (.sub .tf (.rom .tfirka)) .tf) = true) ∧
    ((heatNotebook slycot).all
      (fun op => !((opReportsOrPlots op && !opIsQuadRatio op) &&
        (opExprs op).any (mentionsExpr (.rom .tfirka)))) = true) := by
  intro slycot
  cases slycot
  · exact ⟨by decide, by decide, by decide, by decide⟩
  · exact ⟨by decide, by decide, by decide, by decide⟩

/-- Witness for the amended C2 at `config.HAVE_SLYCOT = True`. -/
theorem heat_error_quantification_witness :
    [RedMethod.bt, .lqgbt, .brbt, .irka, .osirka].all
      (romFullyScored true (heatNotebook true)) = true :=
  (heat_error_quantification true).1

/-- Claim C3 as stated (spec side): every reduction in the trace is applied
to the LTI state-space model obtained from `to_lti()`. -/
def specC3ReducesFromLti (t : List NbOp) : Bool :=
  t.all fun op =>
    match op with
    | .reduce _ src _ => src = SysExpr.lti
    | _ => true

/-- Counterexample to C3: the TF-IRKA reduction is applied to the analytic
transfer function `tf`, not to the LTI model, so not every reduced model is a
lower-order approximation of the same LTI model. -/
theorem heat_c3_counterexample :
    specC3ReducesFromLti (heatNotebook true) = false ∧
    NbOp.reduce .tfirka .tf (some 5) ∈ heatNotebook true := by
  constructor
  · decide
  · decide

/-- C3 amended: the notebook first discretizes the heat-equation PDE, then
converts the result to LTI form, and only after that applies the reductions;
BT, LQGBT, BRBT, IRKA, TSIA and one-sided IRKA all reduce the LTI model
(TSIA through an order-5 initial model), while TF-IRKA reduces the analytic
transfer function of the same heat equation; every one of the seven reduction
calls requests reduced order 5, strictly lower than the full model's
order. -/
theorem heat_pipeline_order : ∀ slycot : Bool,
    (((heatNotebook slycot).takeWhile (fun op => !(op = NbOp.toLTI))).any
      (fun op => op = NbOp.discretize 100 100) = true) ∧
    (((heatNotebook slycot).takeWhile (fun op => !(op = NbOp.toLTI))).any
      isReduceOp = false) ∧
    NbOp.toLTI ∈ heatNotebook slycot ∧
    ((heatNotebook slycot).all (fun op =>
      match op with
      | NbOp.reduce _ _ ord => ord = some 5
      | _ => true) = true) ∧
    NbOp.reduce .bt .lti (some 5) ∈ heatNotebook slycot ∧
    NbOp.reduce .lqgbt .lti (some 5) ∈ heatNotebook slycot ∧
    NbOp.reduce .brbt .lti (some 5) ∈ heatNotebook slycot ∧
    NbOp.reduce .irka .lti (some 5) ∈ heatNotebook slycot ∧
    NbOp.reduce .tsia .lti (some 5) ∈ heatNotebook slycot ∧
    NbOp.reduce .osirka .lti (some 5) ∈ heatNotebook slycot ∧
    NbOp.reduce .tfirka .tf (some 5) ∈ heatNotebook slycot ∧
    ((heatNotebook slycot).countP isReduceOp = 7) ∧
    5 < fullOrder := by
  intro slycot
  cases slycot
  · refine ⟨by decide, by decide, by decide, by decide, by decide, by decide, by decide,
      by decide, by decide, by decide, by decide, by decide, by decide⟩
  · refine ⟨by decide, by decide, by decide, by decide, by decide, by decide, by decide,
      by decide, by decide, by decide, by decide, by decide, by decide⟩

/-- Witness for the amended C3 at `config.HAVE_SLYCOT = True`. -/
theorem heat_pipeline_order_witness :
    ((heatNotebook true).takeWhile (fun op => !(op = NbOp.toLTI))).any
      isReduceOp = false ∧
    NbOp.reduce .tfirka .tf (some 5) ∈ heatNotebook true :=
  ⟨(heat_pipeline_order true).2.1,
   (heat_pipeline_order true).2.2.2.2.2.2.2.2.2.2.1⟩

/-- Whether a method-based norm report is a relative error against the LTI
full model: same norm in numerator and denominator, denominator the LTI
model, numerator the error system of a reduced model against the LTI
model. -/
def normReportIsRelative : NbOp → Bool
  | .ratioNormReport num numNorm den denNorm =>
      numNorm = denNorm && den = SysExpr.lti &&
        (match num with
         | SysExpr.sub a (SysExpr.rom _) => a = SysExpr.lti
         | _ => false)
  | _ => true

/-- Whether a quadrature-based relative H2 figure divides a distance from a
reference model by the norm of that same reference model. -/
def quadReportIsRelative : NbOp → Bool
  | .quadRatioH2Report num den =>
      (match num with
       | SysExpr.sub a _ => a = den
       | _ => false)
  | _ => true

/-- C5: reduction quality is scored relatively.  Every method-based norm
report of the notebook (the `err.X_norm() / lti.X_norm()` prints) divides the
error system's norm by the full LTI model's same norm, and there are 15 such
reports with Slycot (5 methods x 3 norms) and 10 without; moreover every
quadrature-based relative H2 figure is likewise a ratio against the norm of
its own reference model. -/
theorem heat_relative_error_scoring : ∀ slycot : Bool,
    ((heatNotebook slycot).all normReportIsRelative = true) ∧
    ((heatNotebook slycot).countP isRatioNormReport = if slycot then 15 else 10) ∧
    ((heatNotebook slycot).all quadReportIsRelative = true) := by
  intro slycot
  cases slycot
  · exact ⟨by decide, by decide, by decide⟩
  · exact ⟨by decide, by decide, by decide⟩

/-- Witness for C5 at `config.HAVE_SLYCOT = True`. -/
theorem heat_relative_error_scoring_witness :
    ((heatNotebook true).all normReportIsRelative = true) ∧
    ((heatNotebook true).countP isRatioNormReport = 15) :=
  ⟨(heat_relative_error_scoring true).1, (heat_relative_error_scoring true).2.1⟩

/-! ### LTI state-space data and `from_matrices` (claim C6)

`LTIModel.from_matrices` is pymor library code and is not under `src/`; it is
modelled from the spec's glossary. -/

/-- A matrix with rational entries, as a list of rows. -/
def QMat : Type := List (List ℚ)

/-- Whether `M` is a well-formed `r` by `c` matrix. -/
def matDims (M : QMat) (r c : Nat) : Bool :=
  List.length M = r && List.all M fun row => row.length = c

/-- The zero matrix of shape `r` by `c` (the omitted feedthrough `D`). -/
def zerosMat (r c : Nat) : QMat :=
  List.replicate r (List.replicate c (0 : ℚ))

/-- The identity matrix of order `n` (`np.eye(n)`). -/
def eyeMat (n : Nat) : QMat :=
  (List.range n).map fun i => (List.range n).map fun j => if i = j then (1 : ℚ) else 0

/-- The diagonal matrix with diagonal `d` (`np.diag(d)`). -/
def diagMat (d : List ℚ) : QMat :=
  (List.range d.length).map fun i =>
    (List.range d.length).map fun j => if i = j then d.getD i 0 else 0

/-- Modelled from the spec: an LTI model is a linear time-invariant
state-space representation given by the matrices `A`, `B`, `C`, `D`, `E`
(glossary of the spec); `LTIModel.from_matrices` itself is pymor library
code absent from `src/`. -/
structure LTIModelMats where
  A : QMat
  B : QMat
  C : QMat
  D : QMat
  E : QMat

/-- Modelled from the spec: `LTIModel.from_matrices` (pymor library code,
not under `src/`) builds an LTI model from state-space matrices; `A` is
`n` by `n`, `B` is `n` by `m`, `C` is `p` by `n`, the optional feedthrough
`D` defaults to the `p` by `m` zero matrix and the optional `E` defaults to
the identity; incompatible shapes are rejected. -/
def fromMatrices (A B C : QMat) (D E : Option QMat) : Option LTIModelMats :=
  let n := List.length A
  let m := (List.headD B []).length
  let p := List.length C
  let Dm := D.getD (zerosMat p m)
  let Em := E.getD (eyeMat n)
  if matDims A n n && matDims B n m && matDims C p n &&
      matDims Dm p m && matDims Em n n then
    some ⟨A, B, C, Dm, Em⟩
  else
    none

/-- Cell 40 of the notebook: `Ar = np.diag(-np.logspace(-1, 3, r))` with
`r = 5`; `np.logspace(-1, 3, 5)` is the five powers of ten from `0.1` to
`1000`. -/
def tsiaAr : QMat :=
  diagMat ([1/10, 1, 10, 100, 1000].map fun x => -x)

/-- Cell 40: `Br = np.ones((r, 1))`. -/
def tsiaBr : QMat := List.replicate 5 [(1 : ℚ)]

/-- Cell 40: `Cr = np.ones((1, r))`. -/
def tsiaCr : QMat := [List.replicate 5 (1 : ℚ)]

/-- Cell 40: `Er = np.eye(r)`. -/
def tsiaEr : QMat := eyeMat 5

/-- C6: `LTIModel.from_matrices` accepts the TSIA initial matrices `Ar`,
`Br`, `Cr` with `E = Er` given and `D` omitted, and yields a valid LTI model
whose feedthrough defaults to the 1 by 1 zero matrix; the shapes are the
compatible `5 x 5`, `5 x 1`, `1 x 5`, `5 x 5`. -/
theorem fromMatrices_tsia_rom0 :
    fromMatrices tsiaAr tsiaBr tsiaCr none (some tsiaEr) =
      some ⟨tsiaAr, tsiaBr, tsiaCr, zerosMat 1 1, tsiaEr⟩ ∧
    matDims tsiaAr 5 5 = true ∧ matDims tsiaBr 5 1 = true ∧
    matDims tsiaCr 1 5 = true ∧ matDims tsiaEr 5 5 = true := by
  refine ⟨?_, rfl, rfl, rfl, rfl⟩
  rfl
